import Mathlib

/-!
Shallow embedding of the u8_encode repository: a fixed-width binary codec
that packs rows of mixed-type values (unsigned 64-bit integers, IEEE-754
doubles, UTF-8 strings) into 256-byte records.

The repository holds two near-duplicate copies of the codec:
`src/U8Encoder.py` (module-level functions, embedded here at top level) and
`src/u8_encode.py` (static methods of a `U8Encoder` class, embedded in the
`U8Encoder` namespace).  Bytes are modelled as `Nat`, byte buffers as
`List Nat`, and every fallible Python function becomes `Except Err`.

Modelling decisions, each tied to the source:
* A Python value is one of the three kinds `encode_item` dispatches on.
  A float is represented by the `Nat` bit pattern of its 8-byte big-endian
  IEEE-754 image, so `struct.pack(">d", f)` is `natToBe8` of that pattern
  and the pack/unpack round trip is bit-exact, exactly as in CPython.
  A string is represented by its UTF-8 byte sequence, so `item.encode("utf-8")`
  is the identity and `bytes.decode("utf-8")` is the identity on the byte
  sequences the encoder can produce.  A Python `int` is an unbounded `Int`;
  `struct.pack(">Q", n)` succeeds exactly on `0 <= n < 2^64`.
* `struct.unpack(">Q", b)` / `struct.unpack(">d", b)` demand exactly 8 bytes
  and `struct.unpack(">Ns", b)` demands exactly `N`, else `struct.error`.
* The `while i < 256` scan of `decode_record` is written with a fuel
  argument for structural recursion; fuel `256` at offset `0` maintains the
  invariant `256 - i <= fuel` because every iteration advances `i` by
  `item_len + 1 >= 1`, so the fuel branch is reached only when `i >= 256`,
  where the Python loop also exits with the items collected so far
  (`decodeLoop_fuel_irrelevant` below makes the independence from the fuel
  value explicit).
* Python's slice `encoded_record[i+1 : i+1+item_len]` clamps at the list
  end; that is `(buf.drop (i+1)).take item_len`.
* The pandas DataFrames of `encode_database` / `decode_database` are
  abstracted to the pair (column names, list of rows): the spec places the
  tabular container out of scope, and `df.iterrows()` yields exactly the
  data rows in order while `df.columns.tolist()` yields the column names.
-/

/-- Error kinds, one per raise site of the source (each Python raise is a
`ValueError` or `struct.error`; the constructor records which check fired). -/
inductive Err where
  /-- `encode_hint`: the data type is not in `{"int", "float", "str"}`. -/
  | unsupportedHintType
  /-- `encode_hint`: the bit length is outside `0..63`. -/
  | hintBitsOutOfRange
  /-- `decode_hint`: the extracted 2-bit tag is `0`. -/
  | unknownTagCode
  /-- `decode_item`: the type-name string is not one of the three known ones. -/
  | unknownItemType
  /-- `struct.unpack`: the buffer length does not match the format. -/
  | unpackSizeMismatch
  /-- `struct.pack(">Q", n)`: `n` is negative or at least `2^64`. -/
  | packOutOfRange
  /-- `encode_record`: the concatenated encoding exceeds 256 bytes. -/
  | recordTooLarge
  /-- `decode_record`: the buffer is not exactly 256 bytes long. -/
  | recordLengthMismatch
  /-- `decode_database`: `iloc[0]` on an empty frame. -/
  | headerIndexError
deriving DecidableEq, Repr

/-- The three value kinds `encode_item` dispatches on.  `vInt` carries the
unbounded Python integer, `vFloat` the 64-bit IEEE-754 bit pattern of the
double, `vStr` the UTF-8 byte sequence of the string. -/
inductive Value where
  | vInt (n : Int)
  | vFloat (bits : Nat)
  | vStr (s : List Nat)
deriving DecidableEq, Repr

deriving instance DecidableEq for Except

set_option maxRecDepth 100000

/-- The dictionary `{"int": 1, "float": 2, "str": 3}` of `encode_hint`. -/
def typeMap (data_type : String) : Option Nat :=
  if data_type = "int" then some 1
  else if data_type = "float" then some 2
  else if data_type = "str" then some 3
  else none

/-- `encode_hint(data_type, data_bits)` of `U8Encoder.py`: checks the type
name against the dictionary, then `0 <= data_bits <= 63`, and returns
`(type_map[data_type] << 6) | data_bits`. -/
def encode_hint (data_type : String) (data_bits : Int) : Except Err Nat :=
  match typeMap data_type with
  | none => .error .unsupportedHintType
  | some tm =>
    if 0 ≤ data_bits ∧ data_bits ≤ 63 then .ok ((tm <<< 6) ||| data_bits.toNat)
    else .error .hintBitsOutOfRange

/-- `decode_hint(encoded_value)` of `U8Encoder.py`: tag is
`(encoded_value >> 6) & 0x3`, bits are `encoded_value & 0x3F`; tag `0` is
not in the dictionary `{1: "int", 2: "float", 3: "str"}` and raises. -/
def decode_hint (encoded_value : Nat) : Except Err (String × Nat) :=
  let data_type := (encoded_value >>> 6) &&& 0x3
  let data_bits := encoded_value &&& 0x3F
  if data_type = 1 then .ok ("int", data_bits)
  else if data_type = 2 then .ok ("float", data_bits)
  else if data_type = 3 then .ok ("str", data_bits)
  else .error .unknownTagCode

/-- The 8 big-endian bytes `struct.pack(">Q", n)` produces for
`0 <= n < 2^64` (and `struct.pack(">d", f)` for the double whose bit
pattern is `n`). -/
def natToBe8 (n : Nat) : List Nat :=
  [n / 2 ^ 56 % 256, n / 2 ^ 48 % 256, n / 2 ^ 40 % 256, n / 2 ^ 32 % 256,
   n / 2 ^ 24 % 256, n / 2 ^ 16 % 256, n / 2 ^ 8 % 256, n % 256]

/-- The unsigned big-endian value `struct.unpack(">Q", b)` reads from a
byte sequence. -/
def beNat (bs : List Nat) : Nat :=
  bs.foldl (fun acc b => acc * 256 + b) 0

/-- `encode_item(item)` of `U8Encoder.py`.  The Python body builds
`[encode_hint(...)] + list(struct.pack(...))`, evaluating the hint first;
for an `int`, `struct.pack(">Q", item)` then raises `struct.error` unless
`0 <= item < 2^64`; for a `float`, `struct.pack(">d", item)` always
succeeds; for a `str`, `struct.pack(">Ls", b)` with `L = len(b)` is the
identity on the UTF-8 bytes, so the only failure is the hint's length
check on `L`. -/
def encode_item (item : Value) : Except Err (List Nat) :=
  match item with
  | .vInt n =>
    match encode_hint "int" 8 with
    | .error e => .error e
    | .ok h =>
      if 0 ≤ n ∧ n < 18446744073709551616 then .ok (h :: natToBe8 n.toNat)
      else .error .packOutOfRange
  | .vFloat bits =>
    match encode_hint "float" 8 with
    | .error e => .error e
    | .ok h => .ok (h :: natToBe8 bits)
  | .vStr s =>
    match encode_hint "str" (s.length : Int) with
    | .error e => .error e
    | .ok h => .ok (h :: s)

/-- `decode_item(item_type, item_len, encoded_item)` of `U8Encoder.py`:
dispatch on the type-name string; `struct.unpack(">Q", .)` and
`struct.unpack(">d", .)` require exactly 8 bytes, `struct.unpack(">Ls", .)`
requires exactly `item_len` bytes.  The final `bytes.decode("utf-8")` of
the string case is the identity in the byte-sequence model of strings. -/
def decode_item (item_type : String) (item_len : Nat) (encoded_item : List Nat) :
    Except Err Value :=
  if item_type = "int" then
    if encoded_item.length = 8 then .ok (.vInt (Int.ofNat (beNat encoded_item)))
    else .error .unpackSizeMismatch
  else if item_type = "float" then
    if encoded_item.length = 8 then .ok (.vFloat (beNat encoded_item))
    else .error .unpackSizeMismatch
  else if item_type = "str" then
    if encoded_item.length = item_len then .ok (.vStr encoded_item)
    else .error .unpackSizeMismatch
  else .error .unknownItemType

/-- The accumulation loop of `encode_record`: extend the byte list with
`encode_item(item)` for each item in order, stopping at the first raise. -/
def encodeItems : List Value → Except Err (List Nat)
  | [] => .ok []
  | v :: vs =>
    match encode_item v with
    | .error e => .error e
    | .ok e =>
      match encodeItems vs with
      | .error e => .error e
      | .ok rest => .ok (e ++ rest)

/-- `encode_record(record)` of `U8Encoder.py`: concatenate the item
encodings, raise if the total exceeds 256 bytes, else zero-pad to 256. -/
def encode_record (record : List Value) : Except Err (List Nat) :=
  match encodeItems record with
  | .error e => .error e
  | .ok encoded_items =>
    if 256 < encoded_items.length then .error .recordTooLarge
    else .ok (encoded_items ++ List.replicate (256 - encoded_items.length) 0)

/-- The `while i < 256` scan of `decode_record`, with a fuel argument for
structural recursion (see the header comment: fuel `256` is enough because
each iteration advances `i` by at least one, so the `0` branch is reached
only with `i` already at or past 256, where the loop also stops). -/
def decodeLoop (buf : List Nat) : Nat → Nat → Except Err (List Value)
  | 0, _ => .ok []
  | fuel + 1, i =>
    if i < 256 then
      if buf.getD i 0 = 0 then .ok []
      else
        match decode_hint (buf.getD i 0) with
        | .error e => .error e
        | .ok (item_type, item_len) =>
          match decode_item item_type item_len ((buf.drop (i + 1)).take item_len) with
          | .error e => .error e
          | .ok v =>
            match decodeLoop buf fuel (i + item_len + 1) with
            | .error e => .error e
            | .ok rest => .ok (v :: rest)
    else .ok []

/-- `decode_record(encoded_record)` of `U8Encoder.py`: demand exactly 256
bytes, then run the scan from offset 0. -/
def decode_record (encoded_record : List Nat) : Except Err (List Value) :=
  if encoded_record.length = 256 then decodeLoop encoded_record 256 0
  else .error .recordLengthMismatch

/-- Companion of `decodeLoop` that reports the offset at which the scan
stops on the zero sentinel (`none` if it instead errors or runs to the end
of the buffer).  Used to state the padding-leniency property. -/
def scanStop (buf : List Nat) : Nat → Nat → Option Nat
  | 0, _ => none
  | fuel + 1, i =>
    if i < 256 then
      if buf.getD i 0 = 0 then some i
      else
        match decode_hint (buf.getD i 0) with
        | .error _ => none
        | .ok (item_type, item_len) =>
          match decode_item item_type item_len ((buf.drop (i + 1)).take item_len) with
          | .error _ => none
          | .ok _ => scanStop buf fuel (i + item_len + 1)
    else none

/-- The list comprehension `[encode_record(row) for _, row in df.iterrows()]`:
encode each row in order, stopping at the first raise. -/
def encodeRows : List (List Value) → Except Err (List (List Nat))
  | [] => .ok []
  | r :: rs =>
    match encode_record r with
    | .error e => .error e
    | .ok b =>
      match encodeRows rs with
      | .error e => .error e
      | .ok bs => .ok (b :: bs)

/-- The list comprehension `[decode_record(row.tolist()) for _, row in ...]`:
decode each record in order, stopping at the first raise. -/
def decodeRows : List (List Nat) → Except Err (List (List Value))
  | [] => .ok []
  | r :: rs =>
    match decode_record r with
    | .error e => .error e
    | .ok v =>
      match decodeRows rs with
      | .error e => .error e
      | .ok vs => .ok (v :: vs)

/-- `encode_database(df)` of `U8Encoder.py`: encode the column names
(`df.columns.tolist()`) as the header record, encode the data rows, and
return the header followed by the data records. -/
def encode_database (columns : List Value) (rows : List (List Value)) :
    Except Err (List (List Nat)) :=
  match encode_record columns with
  | .error e => .error e
  | .ok header_record =>
    match encodeRows rows with
    | .error e => .error e
    | .ok data_records => .ok (header_record :: data_records)

/-- `decode_database(encoded_df)` of `U8Encoder.py`: `iloc[0]` (an
`IndexError` on an empty frame) decoded as the header, the remaining rows
decoded as the data records, returned as (column names, rows). -/
def decode_database (encoded : List (List Nat)) :
    Except Err (List Value × List (List Value)) :=
  match encoded with
  | [] => .error .headerIndexError
  | h :: rest =>
    match decode_record h with
    | .error e => .error e
    | .ok header =>
      match decodeRows rest with
      | .error e => .error e
      | .ok data_records => .ok (header, data_records)

namespace U8Encoder

/-!
The second copy, `src/u8_encode.py`: the `U8Encoder` class.  Its static
methods `_encode_hint`, `_decode_hint`, `_encode_item`, `_decode_item`,
`encode_record` and `decode_record` are token-for-token the same code as
the module-level functions of `U8Encoder.py` (modulo the `U8Encoder.`
qualification of internal calls) and are embedded again here, each from
its own source text.  The class's `encode_database` and `decode_database`
differ from the module-level ones: they contain no header handling at all.
-/

/-- `U8Encoder._encode_hint` of `u8_encode.py` (same body as the
module-level `encode_hint`). -/
def _encode_hint (data_type : String) (data_bits : Int) : Except Err Nat :=
  match typeMap data_type with
  | none => .error .unsupportedHintType
  | some tm =>
    if 0 ≤ data_bits ∧ data_bits ≤ 63 then .ok ((tm <<< 6) ||| data_bits.toNat)
    else .error .hintBitsOutOfRange

/-- `U8Encoder._decode_hint` of `u8_encode.py`. -/
def _decode_hint (encoded_value : Nat) : Except Err (String × Nat) :=
  let data_type := (encoded_value >>> 6) &&& 0x3
  let data_bits := encoded_value &&& 0x3F
  if data_type = 1 then .ok ("int", data_bits)
  else if data_type = 2 then .ok ("float", data_bits)
  else if data_type = 3 then .ok ("str", data_bits)
  else .error .unknownTagCode

/-- `U8Encoder._encode_item` of `u8_encode.py`. -/
def _encode_item (item : Value) : Except Err (List Nat) :=
  match item with
  | .vInt n =>
    match _encode_hint "int" 8 with
    | .error e => .error e
    | .ok h =>
      if 0 ≤ n ∧ n < 18446744073709551616 then .ok (h :: natToBe8 n.toNat)
      else .error .packOutOfRange
  | .vFloat bits =>
    match _encode_hint "float" 8 with
    | .error e => .error e
    | .ok h => .ok (h :: natToBe8 bits)
  | .vStr s =>
    match _encode_hint "str" (s.length : Int) with
    | .error e => .error e
    | .ok h => .ok (h :: s)

/-- `U8Encoder._decode_item` of `u8_encode.py`. -/
def _decode_item (item_type : String) (item_len : Nat) (encoded_item : List Nat) :
    Except Err Value :=
  if item_type = "int" then
    if encoded_item.length = 8 then .ok (.vInt (Int.ofNat (beNat encoded_item)))
    else .error .unpackSizeMismatch
  else if item_type = "float" then
    if encoded_item.length = 8 then .ok (.vFloat (beNat encoded_item))
    else .error .unpackSizeMismatch
  else if item_type = "str" then
    if encoded_item.length = item_len then .ok (.vStr encoded_item)
    else .error .unpackSizeMismatch
  else .error .unknownItemType

/-- The accumulation loop of `U8Encoder.encode_record` of `u8_encode.py`. -/
def encodeItems : List Value → Except Err (List Nat)
  | [] => .ok []
  | v :: vs =>
    match _encode_item v with
    | .error e => .error e
    | .ok e =>
      match encodeItems vs with
      | .error e => .error e
      | .ok rest => .ok (e ++ rest)

/-- `U8Encoder.encode_record` of `u8_encode.py`. -/
def encode_record (record : List Value) : Except Err (List Nat) :=
  match encodeItems record with
  | .error e => .error e
  | .ok encoded_items =>
    if 256 < encoded_items.length then .error .recordTooLarge
    else .ok (encoded_items ++ List.replicate (256 - encoded_items.length) 0)

/-- The `while i < 256` scan of `U8Encoder.decode_record` of `u8_encode.py`. -/
def decodeLoop (buf : List Nat) : Nat → Nat → Except Err (List Value)
  | 0, _ => .ok []
  | fuel + 1, i =>
    if i < 256 then
      if buf.getD i 0 = 0 then .ok []
      else
        match _decode_hint (buf.getD i 0) with
        | .error e => .error e
        | .ok (item_type, item_len) =>
          match _decode_item item_type item_len ((buf.drop (i + 1)).take item_len) with
          | .error e => .error e
          | .ok v =>
            match decodeLoop buf fuel (i + item_len + 1) with
            | .error e => .error e
            | .ok rest => .ok (v :: rest)
    else .ok []

/-- `U8Encoder.decode_record` of `u8_encode.py`. -/
def decode_record (encoded_record : List Nat) : Except Err (List Value) :=
  if encoded_record.length = 256 then decodeLoop encoded_record 256 0
  else .error .recordLengthMismatch

/-- The list comprehension inside `U8Encoder.encode_database`. -/
def encodeAllRows : List (List Value) → Except Err (List (List Nat))
  | [] => .ok []
  | r :: rs =>
    match encode_record r with
    | .error e => .error e
    | .ok b =>
      match encodeAllRows rs with
      | .error e => .error e
      | .ok bs => .ok (b :: bs)

/-- `U8Encoder.encode_database(df)` of `u8_encode.py`:
`pd.DataFrame([U8Encoder.encode_record(row) for _, row in df.iterrows()])`.
`df.iterrows()` yields only the data rows; the frame's column names are
never encoded, so the `columns` argument of the abstraction is unused. -/
def encode_database (columns : List Value) (rows : List (List Value)) :
    Except Err (List (List Nat)) :=
  encodeAllRows rows

/-- The list comprehension inside `U8Encoder.decode_database`. -/
def decodeAllRows : List (List Nat) → Except Err (List (List Value))
  | [] => .ok []
  | r :: rs =>
    match decode_record r with
    | .error e => .error e
    | .ok v =>
      match decodeAllRows rs with
      | .error e => .error e
      | .ok vs => .ok (v :: vs)

/-- `U8Encoder.decode_database(encoded_df)` of `u8_encode.py`: every row of
the encoded frame is decoded as a data record; no row is treated as a
header. -/
def decode_database (encoded : List (List Nat)) : Except Err (List (List Value)) :=
  decodeAllRows encoded

end U8Encoder

/-- A value the spec calls supported: an unsigned 64-bit integer, a float
(any 64-bit pattern), or a string of at most 63 UTF-8 bytes. -/
def Supported : Value → Prop
  | .vInt n => 0 ≤ n ∧ n < 18446744073709551616
  | .vFloat bits => bits < 18446744073709551616
  | .vStr s => s.length ≤ 63 ∧ ∀ b ∈ s, b < 256

instance instDecSupported : (v : Value) → Decidable (Supported v)
  | .vInt n => inferInstanceAs (Decidable (0 ≤ n ∧ n < 18446744073709551616))
  | .vFloat bits => inferInstanceAs (Decidable (bits < 18446744073709551616))
  | .vStr s => inferInstanceAs (Decidable (s.length ≤ 63 ∧ ∀ b ∈ s, b < 256))

/-- The number of bytes a supported value occupies in a record: one hint
byte plus the payload. -/
def encodedSize : Value → Nat
  | .vInt _ => 9
  | .vFloat _ => 9
  | .vStr s => 1 + s.length

/-- First buffer for the padding-leniency analysis: the encoding of the
single row `[1]` (hint 72, eight big-endian payload bytes, zero padding).
Its first zero byte sits at offset 1, inside the integer payload. -/
def cexBufA : List Nat := [72, 0, 0, 0, 0, 0, 0, 0, 1] ++ List.replicate 247 0

/-- Second buffer: identical to `cexBufA` up to and including that first
zero byte (offset 1) but with a different final payload byte. -/
def cexBufB : List Nat := [72, 0, 0, 0, 0, 0, 0, 0, 2] ++ List.replicate 247 0

/-- Witness buffer for the amended padding-leniency property: the encoding
of the row `[5]`, whose scan stops on the sentinel at offset 9. -/
def lenientBufA : List Nat := [72, 0, 0, 0, 0, 0, 0, 0, 5] ++ List.replicate 247 0

/-- Same bytes as `lenientBufA` through the sentinel at offset 9, with a
nonzero byte in the padding region. -/
def lenientBufB : List Nat :=
  [72, 0, 0, 0, 0, 0, 0, 0, 5, 0, 7] ++ List.replicate 245 0

/-- A row of four 63-byte strings: its encoding fills all 256 bytes of a
record exactly, leaving no room for a sentinel. -/
def exactFillRow : List Value :=
  List.replicate 4 (Value.vStr (List.replicate 63 97))

/-- The encoding of one 63-byte string value: hint byte 255 (tag 3, length
63) and the 63 payload bytes. -/
def strChunk : List Nat := 255 :: List.replicate 63 97

/-- The 256-byte encoding of `exactFillRow`. -/
def exactFillBytes : List Nat := strChunk ++ strChunk ++ strChunk ++ strChunk

/-! ## Arithmetic helpers for the hint byte -/

lemma shiftLeft_or_eq (t m : Nat) (ht : t ≤ 3) (hm : m ≤ 63) :
    (t <<< 6) ||| m = 64 * t + m := by
  interval_cases t <;> interval_cases m <;> decide

lemma hint_fields (t m : Nat) (ht : t ≤ 3) (hm : m ≤ 63) :
    ((64 * t + m) >>> 6) &&& 3 = t ∧ (64 * t + m) &&& 63 = m := by
  interval_cases t <;> interval_cases m <;> decide

lemma natToBe8_length (n : Nat) : (natToBe8 n).length = 8 := rfl

lemma beNat_natToBe8 (n : Nat) (h : n < 18446744073709551616) :
    beNat (natToBe8 n) = n := by
  simp only [beNat, natToBe8, List.foldl]
  omega

/-! ## Pointwise facts about the hint codec -/

lemma encode_hint_int_8 : encode_hint "int" 8 = .ok 72 := by decide

lemma encode_hint_float_8 : encode_hint "float" 8 = .ok 136 := by decide

lemma encode_hint_str_ok (L : Nat) (hL : L ≤ 63) :
    encode_hint "str" (L : Int) = .ok (192 + L) := by
  have hor : (192 : Nat) ||| L = 192 + L := by
    have h := shiftLeft_or_eq 3 L (by omega) hL
    simpa using h
  simp [encode_hint, typeMap, hL, hor]

lemma encode_hint_str_long (L : Nat) (hL : 63 < L) :
    encode_hint "str" (L : Int) = .error .hintBitsOutOfRange := by
  simp [encode_hint, typeMap]
  omega

lemma decode_hint_tag1 (m : Nat) (hm : m ≤ 63) :
    decode_hint (64 * 1 + m) = .ok ("int", m) := by
  have h := hint_fields 1 m (by omega) hm
  simp [decode_hint, h.1, h.2]

lemma decode_hint_tag2 (m : Nat) (hm : m ≤ 63) :
    decode_hint (64 * 2 + m) = .ok ("float", m) := by
  have h := hint_fields 2 m (by omega) hm
  simp [decode_hint, h.1, h.2]

lemma decode_hint_tag3 (m : Nat) (hm : m ≤ 63) :
    decode_hint (64 * 3 + m) = .ok ("str", m) := by
  have h := hint_fields 3 m (by omega) hm
  simp [decode_hint, h.1, h.2]

/-! ## Pointwise facts about the value codec -/

lemma encode_item_int_ok (n : Int) (h0 : 0 ≤ n) (h64 : n < 18446744073709551616) :
    encode_item (.vInt n) = .ok (72 :: natToBe8 n.toNat) := by
  simp [encode_item, encode_hint_int_8, if_pos (And.intro h0 h64)]

lemma encode_item_int_oor (n : Int) (h : n < 0 ∨ 18446744073709551616 ≤ n) :
    encode_item (.vInt n) = .error .packOutOfRange := by
  have hcond : ¬ (0 ≤ n ∧ n < 18446744073709551616) := by omega
  simp [encode_item, encode_hint_int_8, if_neg hcond]

lemma encode_item_float_ok (bits : Nat) :
    encode_item (.vFloat bits) = .ok (136 :: natToBe8 bits) := by
  simp [encode_item, encode_hint_float_8]

lemma encode_item_str_ok (s : List Nat) (h : s.length ≤ 63) :
    encode_item (.vStr s) = .ok ((192 + s.length) :: s) := by
  simp [encode_item, encode_hint_str_ok s.length h]

lemma encode_item_str_long (s : List Nat) (h : 63 < s.length) :
    encode_item (.vStr s) = .error .hintBitsOutOfRange := by
  simp [encode_item, encode_hint_str_long s.length h]

lemma decode_item_int_ok (p : List Nat) (h : p.length = 8) :
    decode_item "int" 8 p = .ok (.vInt (Int.ofNat (beNat p))) := by
  simp [decode_item, h]

lemma decode_item_float_ok (p : List Nat) (h : p.length = 8) :
    decode_item "float" 8 p = .ok (.vFloat (beNat p)) := by
  simp [decode_item, h]

lemma decode_item_str_ok (p : List Nat) :
    decode_item "str" p.length p = .ok (.vStr p) := by
  simp [decode_item]

/-- Every supported value encodes to a hint byte `64 * tag + payload length`
(with tag in `1..3` and payload at most 63 bytes) followed by the payload,
and the hint/item decoders invert the encoding. -/
lemma encode_item_spec (v : Value) (hv : Supported v) :
    ∃ (tag : Nat) (name : String) (p : List Nat),
      encode_item v = .ok ((64 * tag + p.length) :: p) ∧
      1 ≤ tag ∧ tag ≤ 3 ∧ p.length ≤ 63 ∧
      encodedSize v = p.length + 1 ∧
      decode_hint (64 * tag + p.length) = .ok (name, p.length) ∧
      decode_item name p.length p = .ok v := by
  cases v with
  | vInt n =>
    obtain ⟨h0, h64⟩ := hv
    refine ⟨1, "int", natToBe8 n.toNat, ?_, by omega, by omega, ?_, ?_, ?_, ?_⟩
    · rw [encode_item_int_ok n h0 h64, natToBe8_length]
    · rw [natToBe8_length]; omega
    · rfl
    · rw [natToBe8_length]; exact decode_hint_tag1 8 (by omega)
    · rw [natToBe8_length]
      rw [decode_item_int_ok (natToBe8 n.toNat) (natToBe8_length n.toNat)]
      rw [beNat_natToBe8 n.toNat (by omega)]
      congr 1
      simp [Int.toNat_of_nonneg h0]
  | vFloat bits =>
    refine ⟨2, "float", natToBe8 bits, ?_, by omega, by omega, ?_, ?_, ?_, ?_⟩
    · rw [encode_item_float_ok bits, natToBe8_length]
    · rw [natToBe8_length]; omega
    · rfl
    · rw [natToBe8_length]; exact decode_hint_tag2 8 (by omega)
    · rw [natToBe8_length]
      rw [decode_item_float_ok (natToBe8 bits) (natToBe8_length bits)]
      rw [beNat_natToBe8 bits hv]
  | vStr s =>
    obtain ⟨hlen, _⟩ := hv
    refine ⟨3, "str", s, ?_, by omega, by omega, hlen, ?_, ?_, ?_⟩
    · rw [encode_item_str_ok s hlen]
    · simp [encodedSize, Nat.add_comm]
    · exact decode_hint_tag3 s.length hlen
    · exact decode_item_str_ok s

/-! ## List access helpers for the record scan -/

lemma getD_drop_cons : ∀ (l : List Nat) (i x : Nat) (t : List Nat),
    l.drop i = x :: t → l.getD i 0 = x
  | l, 0, x, t, h => by
    have hl : l = x :: t := by simpa using h
    subst hl
    rfl
  | [], i + 1, x, t, h => by simp at h
  | a :: l', i + 1, x, t, h => by
    have h' : l'.drop i = x :: t := by simpa using h
    simpa using getD_drop_cons l' i x t h'

lemma drop_shift (l : List Nat) (i m : Nat) : (l.drop i).drop m = l.drop (i + m) :=
  List.drop_drop m i l

/-! ## The concatenation loop of encode_record -/

lemma encodeItems_ok (R : List Value) (hsup : ∀ v ∈ R, Supported v) :
    ∃ C, encodeItems R = .ok C ∧ C.length = (R.map encodedSize).sum := by
  induction R with
  | nil => exact ⟨[], rfl, rfl⟩
  | cons v vs ih =>
    obtain ⟨tag, name, p, henc, _, _, _, hsz, _, _⟩ :=
      encode_item_spec v (hsup v (by simp))
    obtain ⟨C, hC, hlen⟩ := ih (fun w hw => hsup w (by simp [hw]))
    refine ⟨((64 * tag + p.length) :: p) ++ C, ?_, ?_⟩
    · rw [encodeItems, henc, hC]
    · simp [hlen, hsz]
      omega

/-! ## The scan of decode_record inverts the record encoding -/

lemma decodeLoop_roundtrip :
    ∀ (R : List Value) (C : List Nat), (∀ v ∈ R, Supported v) →
      encodeItems R = .ok C →
      ∀ (buf : List Nat) (fuel i : Nat), buf.length = 256 → 256 - i ≤ fuel →
        buf.drop i = C ++ List.replicate (256 - i - C.length) 0 →
        decodeLoop buf fuel i = .ok R := by
  intro R
  induction R with
  | nil =>
    intro C _ hC buf fuel i hblen hfuel hdrop
    have hC0 : (Except.ok [] : Except Err (List Nat)) = .ok C := hC
    have hCnil : C = [] := ((Except.ok.injEq _ _).mp hC0).symm
    subst hCnil
    simp only [List.nil_append, List.length_nil, Nat.sub_zero] at hdrop
    cases fuel with
    | zero => rfl
    | succ f =>
      rw [decodeLoop]
      by_cases hi : i < 256
      · have hrep : 256 - i = (256 - i - 1) + 1 := by omega
        rw [hrep, List.replicate_succ] at hdrop
        rw [if_pos hi, getD_drop_cons buf i 0 _ hdrop]
        simp
      · rw [if_neg hi]
  | cons v vs ih =>
    intro C hsup hC buf fuel i hblen hfuel hdrop
    obtain ⟨tag, name, p, henc, htag1, htag3, hp63, _, hdh, hdi⟩ :=
      encode_item_spec v (hsup v (by simp))
    rw [encodeItems, henc] at hC
    cases hC' : encodeItems vs with
    | error e => rw [hC'] at hC; cases hC
    | ok C' =>
      rw [hC'] at hC
      have hC2 : (Except.ok (((64 * tag + p.length) :: p) ++ C') :
          Except Err (List Nat)) = .ok C := hC
      have hCeq : C = ((64 * tag + p.length) :: p) ++ C' :=
        ((Except.ok.injEq _ _).mp hC2).symm
      subst hCeq
      have hdlen := congrArg List.length hdrop
      simp only [List.length_drop, hblen, List.length_append, List.length_cons,
        List.length_replicate] at hdlen
      have hCle : p.length + 1 + C'.length ≤ 256 - i := by omega
      have hi : i < 256 := by omega
      obtain ⟨f, rfl⟩ : ∃ f, fuel = f + 1 := ⟨fuel - 1, by omega⟩
      rw [decodeLoop, if_pos hi]
      have hdrop' : buf.drop i =
          (64 * tag + p.length) :: (p ++ (C' ++
            List.replicate (256 - i - (p.length + 1 + C'.length)) 0)) := by
        rw [hdrop]
        simp
        omega
      have hb : buf.getD i 0 = 64 * tag + p.length := getD_drop_cons buf i _ _ hdrop'
      have hbyte0 : ¬ (64 * tag + p.length = 0) := by omega
      have htail : buf.drop (i + 1) =
          p ++ (C' ++ List.replicate (256 - i - (p.length + 1 + C'.length)) 0) := by
        rw [← drop_shift buf i 1, hdrop']
        rfl
      have hslice : (buf.drop (i + 1)).take p.length = p := by
        rw [htail, List.take_left]
      have hrec : decodeLoop buf f (i + p.length + 1) = .ok vs := by
        apply ih C' (fun w hw => hsup w (by simp [hw])) hC' buf f
          (i + p.length + 1) hblen (by omega)
        have hdrop2 : buf.drop (i + (p.length + 1)) =
            C' ++ List.replicate (256 - i - (p.length + 1 + C'.length)) 0 := by
          rw [← drop_shift buf i (p.length + 1), hdrop', List.drop_succ_cons,
            List.drop_left]
        have harith : i + p.length + 1 = i + (p.length + 1) := by omega
        have hfin : 256 - (i + p.length + 1) - C'.length =
            256 - i - (p.length + 1 + C'.length) := by omega
        rw [hfin, harith, hdrop2]
      simp only [decodeLoop, hb, if_pos hi, if_neg hbyte0, hdh, hslice, hdi, hrec]

/-! ## Record-level packaging -/

lemma encode_record_ok (R : List Value) (C : List Nat) (hC : encodeItems R = .ok C)
    (hle : C.length ≤ 256) :
    encode_record R = .ok (C ++ List.replicate (256 - C.length) 0) := by
  simp only [encode_record, hC, if_neg (by omega : ¬ 256 < C.length)]

lemma encode_record_large (R : List Value) (C : List Nat) (hC : encodeItems R = .ok C)
    (hgt : 256 < C.length) : encode_record R = .error .recordTooLarge := by
  simp only [encode_record, hC, if_pos hgt]

lemma padded_length (C : List Nat) (h : C.length ≤ 256) :
    (C ++ List.replicate (256 - C.length) 0).length = 256 := by
  simp
  omega

lemma decode_record_padded (R : List Value) (C : List Nat)
    (hsup : ∀ v ∈ R, Supported v) (hC : encodeItems R = .ok C)
    (hle : C.length ≤ 256) :
    decode_record (C ++ List.replicate (256 - C.length) 0) = .ok R := by
  rw [decode_record, if_pos (padded_length C hle)]
  apply decodeLoop_roundtrip R C hsup hC _ 256 0 (padded_length C hle) (by omega)
  simp

/-! ## The scan exits cleanly and its fuel is immaterial -/

lemma decodeLoop_past (buf : List Nat) (fuel i : Nat) (h : 256 ≤ i) :
    decodeLoop buf fuel i = .ok [] := by
  cases fuel with
  | zero => rfl
  | succ f => rw [decodeLoop, if_neg (by omega)]

lemma decodeLoop_fuel_irrelevant (buf : List Nat) :
    ∀ f1 f2 i, 256 - i ≤ f1 → 256 - i ≤ f2 →
      decodeLoop buf f1 i = decodeLoop buf f2 i := by
  intro f1
  induction f1 with
  | zero =>
    intro f2 i h1 h2
    rw [decodeLoop_past buf 0 i (by omega), decodeLoop_past buf f2 i (by omega)]
  | succ g ih =>
    intro f2 i h1 h2
    by_cases hi : i < 256
    · obtain ⟨g2, rfl⟩ : ∃ g2, f2 = g2 + 1 := ⟨f2 - 1, by omega⟩
      simp only [decodeLoop, if_pos hi]
      by_cases hb : buf.getD i 0 = 0
      · rw [if_pos hb, if_pos hb]
      · rw [if_neg hb, if_neg hb]
        cases decode_hint (buf.getD i 0) with
        | error e => rfl
        | ok tl =>
          obtain ⟨t, L⟩ := tl
          show (match decode_item t L ((buf.drop (i + 1)).take L) with
              | Except.error e => Except.error e
              | Except.ok v =>
                match decodeLoop buf g (i + L + 1) with
                | Except.error e => Except.error e
                | Except.ok rest => Except.ok (v :: rest)) =
            (match decode_item t L ((buf.drop (i + 1)).take L) with
              | Except.error e => Except.error e
              | Except.ok v =>
                match decodeLoop buf g2 (i + L + 1) with
                | Except.error e => Except.error e
                | Except.ok rest => Except.ok (v :: rest))
          cases decode_item t L ((buf.drop (i + 1)).take L) with
          | error e => rfl
          | ok v => rw [ih g2 (i + L + 1) (by omega) (by omega)]
    · rw [decodeLoop_past buf _ i (by omega), decodeLoop_past buf f2 i (by omega)]

/-! ## Prefix-agreement helpers for the padding-leniency property -/

lemma getD_eq_of_take_eq : ∀ (j : Nat) (A B : List Nat) (n : Nat),
    A.take n = B.take n → j < n → A.getD j 0 = B.getD j 0
  | 0, A, B, n, h, hj => by
    obtain ⟨m, rfl⟩ : ∃ m, n = m + 1 := ⟨n - 1, by omega⟩
    cases A with
    | nil =>
      cases B with
      | nil => rfl
      | cons b bs => simp at h
    | cons a as =>
      cases B with
      | nil => simp at h
      | cons b bs =>
        simp only [List.take_succ_cons, List.cons.injEq] at h
        simp [h.1]
  | j + 1, A, B, n, h, hj => by
    obtain ⟨m, rfl⟩ : ∃ m, n = m + 1 := ⟨n - 1, by omega⟩
    cases A with
    | nil =>
      cases B with
      | nil => rfl
      | cons b bs => simp at h
    | cons a as =>
      cases B with
      | nil => simp at h
      | cons b bs =>
        simp only [List.take_succ_cons, List.cons.injEq] at h
        simpa using getD_eq_of_take_eq j as bs m h.2 (by omega)

lemma slice_eq_of_take_eq : ∀ (a : Nat) (A B : List Nat) (n L : Nat),
    A.take n = B.take n → a + L ≤ n →
    (A.drop a).take L = (B.drop a).take L
  | 0, A, B, n, L, h, hle => by
    have hA : A.take L = (A.take n).take L := by
      rw [List.take_take, Nat.min_eq_left (by omega)]
    have hB : B.take L = (B.take n).take L := by
      rw [List.take_take, Nat.min_eq_left (by omega)]
    simpa [hA, hB] using congrArg (List.take L) h
  | a + 1, A, B, n, L, h, hle => by
    obtain ⟨m, rfl⟩ : ∃ m, n = m + 1 := ⟨n - 1, by omega⟩
    cases A with
    | nil =>
      cases B with
      | nil => rfl
      | cons b bs => simp at h
    | cons a0 as =>
      cases B with
      | nil => simp at h
      | cons b bs =>
        simp only [List.take_succ_cons, List.cons.injEq] at h
        simpa using slice_eq_of_take_eq a as bs m L h.2 (by omega)

/-- If the scan stops on the sentinel, the stop offset is at or past the
starting offset. -/
lemma scanStop_le (buf : List Nat) : ∀ fuel i p,
    scanStop buf fuel i = some p → i ≤ p := by
  intro fuel
  induction fuel with
  | zero => intro i p h; cases h
  | succ f ih =>
    intro i p h
    rw [scanStop] at h
    by_cases hi : i < 256
    · rw [if_pos hi] at h
      by_cases hb : buf.getD i 0 = 0
      · rw [if_pos hb] at h
        have : i = p := by
          have h2 : some i = some p := h
          exact (Option.some.injEq _ _).mp h2
        omega
      · rw [if_neg hb] at h
        cases hh : decode_hint (buf.getD i 0) with
        | error e => rw [hh] at h; cases h
        | ok tl =>
          obtain ⟨t, L⟩ := tl
          rw [hh] at h
          have h2 : (match decode_item t L ((buf.drop (i + 1)).take L) with
              | Except.error _ => (none : Option Nat)
              | Except.ok _ => scanStop buf f (i + L + 1)) = some p := h
          cases hd : decode_item t L ((buf.drop (i + 1)).take L) with
          | error e => rw [hd] at h2; cases h2
          | ok v =>
            rw [hd] at h2
            have := ih (i + L + 1) p h2
            omega
    · rw [if_neg hi] at h
      cases h

/-- If the scan of buffer `A` stops on the zero sentinel at offset `p`, then
decoding agrees with any buffer `B` that matches `A` on offsets `0..p`:
nothing past the sentinel is ever read. -/
lemma decodeLoop_agrees (A B : List Nat) (p : Nat)
    (hpre : A.take (p + 1) = B.take (p + 1)) :
    ∀ fuel i, scanStop A fuel i = some p →
      decodeLoop A fuel i = decodeLoop B fuel i := by
  intro fuel
  induction fuel with
  | zero => intro i h; cases h
  | succ f ih =>
    intro i h
    have hip : i ≤ p := scanStop_le A (f + 1) i p h
    rw [scanStop] at h
    have hi : i < 256 := by
      by_contra hi
      rw [if_neg hi] at h
      cases h
    rw [if_pos hi] at h
    have hbeq : B.getD i 0 = A.getD i 0 :=
      (getD_eq_of_take_eq i A B (p + 1) hpre (by omega)).symm
    by_cases hb : A.getD i 0 = 0
    · rw [decodeLoop, decodeLoop, if_pos hi, if_pos hi, if_pos hb,
        if_pos (hbeq.trans hb)]
    · have hbB : ¬ (B.getD i 0 = 0) := by rw [hbeq]; exact hb
      rw [if_neg hb] at h
      rw [decodeLoop, decodeLoop, if_pos hi, if_pos hi, if_neg hb, if_neg hbB,
        hbeq]
      cases hh : decode_hint (A.getD i 0) with
      | error e => rfl
      | ok tl =>
        obtain ⟨t, L⟩ := tl
        rw [hh] at h
        have h2 : (match decode_item t L ((A.drop (i + 1)).take L) with
            | Except.error _ => (none : Option Nat)
            | Except.ok _ => scanStop A f (i + L + 1)) = some p := h
        show (match decode_item t L ((A.drop (i + 1)).take L) with
            | Except.error e => Except.error e
            | Except.ok v =>
              match decodeLoop A f (i + L + 1) with
              | Except.error e => Except.error e
              | Except.ok rest => Except.ok (v :: rest)) =
          (match decode_item t L ((B.drop (i + 1)).take L) with
            | Except.error e => Except.error e
            | Except.ok v =>
              match decodeLoop B f (i + L + 1) with
              | Except.error e => Except.error e
              | Except.ok rest => Except.ok (v :: rest))
        cases hd : decode_item t L ((A.drop (i + 1)).take L) with
        | error e => rw [hd] at h2; cases h2
        | ok v =>
          rw [hd] at h2
          have hnext : i + L + 1 ≤ p := scanStop_le A f (i + L + 1) p h2
          have hslice : (B.drop (i + 1)).take L = (A.drop (i + 1)).take L :=
            (slice_eq_of_take_eq (i + 1) A B (p + 1) L hpre (by omega)).symm
          rw [hslice, hd, ih (i + L + 1) h2]

/-! ## The two source copies agree below the database level -/

lemma copies_hint_enc_eq (t : String) (L : Int) :
    U8Encoder._encode_hint t L = encode_hint t L := rfl

lemma copies_hint_dec_eq (b : Nat) :
    U8Encoder._decode_hint b = decode_hint b := rfl

lemma copies_item_enc_eq (v : Value) :
    U8Encoder._encode_item v = encode_item v := by
  cases v <;> rfl

lemma copies_item_dec_eq (t : String) (L : Nat) (bs : List Nat) :
    U8Encoder._decode_item t L bs = decode_item t L bs := rfl

lemma copies_encodeItems_eq : ∀ vs, U8Encoder.encodeItems vs = encodeItems vs
  | [] => rfl
  | v :: vs => by
    rw [U8Encoder.encodeItems, encodeItems, copies_item_enc_eq v]
    cases encode_item v with
    | error e => rfl
    | ok e =>
      show (match U8Encoder.encodeItems vs with
          | Except.error e2 => Except.error e2
          | Except.ok rest => Except.ok (e ++ rest)) =
        (match encodeItems vs with
          | Except.error e2 => Except.error e2
          | Except.ok rest => Except.ok (e ++ rest))
      rw [copies_encodeItems_eq vs]

lemma copies_encode_record_eq (r : List Value) :
    U8Encoder.encode_record r = encode_record r := by
  rw [U8Encoder.encode_record, encode_record, copies_encodeItems_eq r]

lemma copies_decodeLoop_eq (buf : List Nat) : ∀ fuel i,
    U8Encoder.decodeLoop buf fuel i = decodeLoop buf fuel i := by
  intro fuel
  induction fuel with
  | zero => intro i; rfl
  | succ f ih =>
    intro i
    by_cases hi : i < 256
    · rw [U8Encoder.decodeLoop, decodeLoop, if_pos hi, if_pos hi]
      by_cases hb : buf.getD i 0 = 0
      · rw [if_pos hb, if_pos hb]
      · rw [if_neg hb, if_neg hb, copies_hint_dec_eq]
        cases decode_hint (buf.getD i 0) with
        | error e => rfl
        | ok tl =>
          obtain ⟨t, L⟩ := tl
          show (match U8Encoder._decode_item t L ((buf.drop (i + 1)).take L) with
              | Except.error e => Except.error e
              | Except.ok v =>
                match U8Encoder.decodeLoop buf f (i + L + 1) with
                | Except.error e => Except.error e
                | Except.ok rest => Except.ok (v :: rest)) =
            (match decode_item t L ((buf.drop (i + 1)).take L) with
              | Except.error e => Except.error e
              | Except.ok v =>
                match decodeLoop buf f (i + L + 1) with
                | Except.error e => Except.error e
                | Except.ok rest => Except.ok (v :: rest))
          rw [copies_item_dec_eq]
          cases decode_item t L ((buf.drop (i + 1)).take L) with
          | error e => rfl
          | ok v => rw [ih (i + L + 1)]
    · rw [U8Encoder.decodeLoop, decodeLoop, if_neg hi, if_neg hi]

lemma copies_decode_record_eq (b : List Nat) :
    U8Encoder.decode_record b = decode_record b := by
  rw [U8Encoder.decode_record, decode_record, copies_decodeLoop_eq b 256 0]

lemma copies_encodeRows_eq : ∀ rs, U8Encoder.encodeAllRows rs = encodeRows rs
  | [] => rfl
  | r :: rs => by
    rw [U8Encoder.encodeAllRows, encodeRows, copies_encode_record_eq r]
    cases encode_record r with
    | error e => rfl
    | ok b =>
      show (match U8Encoder.encodeAllRows rs with
          | Except.error e2 => Except.error e2
          | Except.ok bs => Except.ok (b :: bs)) =
        (match encodeRows rs with
          | Except.error e2 => Except.error e2
          | Except.ok bs => Except.ok (b :: bs))
      rw [copies_encodeRows_eq rs]

lemma copies_decodeRows_eq : ∀ rs, U8Encoder.decodeAllRows rs = decodeRows rs
  | [] => rfl
  | r :: rs => by
    rw [U8Encoder.decodeAllRows, decodeRows, copies_decode_record_eq r]
    cases decode_record r with
    | error e => rfl
    | ok v =>
      show (match U8Encoder.decodeAllRows rs with
          | Except.error e2 => Except.error e2
          | Except.ok vs => Except.ok (v :: vs)) =
        (match decodeRows rs with
          | Except.error e2 => Except.error e2
          | Except.ok vs => Except.ok (v :: vs))
      rw [copies_decodeRows_eq rs]

/-! ## Claim theorems -/

/-- Claim C1: for every row of supported values (unsigned 64-bit integer,
float given by its 64-bit pattern, or string of at most 63 UTF-8 bytes)
whose total encoded size is at most 256 bytes, `decode_record` of
`encode_record` returns the row unchanged, element for element and in
order; floats, carried as their IEEE-754 bit patterns, round-trip
bit-exactly. -/
theorem C1_record_roundtrip (R : List Value) (hsup : ∀ v ∈ R, Supported v)
    (hsize : (R.map encodedSize).sum ≤ 256) :
    ∃ bs, encode_record R = .ok bs ∧ decode_record bs = .ok R := by
  obtain ⟨C, hC, hlen⟩ := encodeItems_ok R hsup
  have hle : C.length ≤ 256 := by omega
  exact ⟨C ++ List.replicate (256 - C.length) 0,
    encode_record_ok R C hC hle, decode_record_padded R C hsup hC hle⟩

/-- Witness for C1: the row `[42, 3.14, "hi"]` (3.14 has IEEE-754 bit
pattern 4614253070214989087, "hi" is bytes 104 105) round-trips. -/
theorem C1_record_roundtrip_witness :
    ∃ bs, encode_record [Value.vInt 42, Value.vFloat 4614253070214989087,
        Value.vStr [104, 105]] = .ok bs ∧
      decode_record bs = .ok [Value.vInt 42, Value.vFloat 4614253070214989087,
        Value.vStr [104, 105]] :=
  C1_record_roundtrip _ (by decide) (by decide)

/-- Claim C4: for each recognized type name and length in `0..63`,
`encode_hint` returns `(tag <<< 6) ||| length` (tag 1 for int, 2 for
float, 3 for str, as recorded in `typeMap`), `decode_hint` inverts it;
concretely `encode_hint "int" 8 = 72` and `decode_hint 72 = ("int", 8)`;
`encode_hint` fails on an unrecognized type name or on a length outside
`[0, 63]`, and `decode_hint` fails whenever the extracted 2-bit tag is 0. -/
theorem C4_hint_codec (t : String) (L : Int) (b : Nat) :
    ((t = "int" ∨ t = "float" ∨ t = "str") → 0 ≤ L → L ≤ 63 →
      ∃ tag, typeMap t = some tag ∧
        encode_hint t L = .ok ((tag <<< 6) ||| L.toNat) ∧
        decode_hint ((tag <<< 6) ||| L.toNat) = .ok (t, L.toNat)) ∧
    (encode_hint "int" 8 = .ok 72 ∧ decode_hint 72 = .ok ("int", 8)) ∧
    ((t ≠ "int" ∧ t ≠ "float" ∧ t ≠ "str") → ∃ e, encode_hint t L = .error e) ∧
    ((L < 0 ∨ 63 < L) → ∃ e, encode_hint t L = .error e) ∧
    ((b >>> 6) &&& 3 = 0 → ∃ e, decode_hint b = .error e) := by
  refine ⟨?_, ⟨by decide, by decide⟩, ?_, ?_, ?_⟩
  · intro ht h0 h63
    rcases ht with rfl | rfl | rfl
    · refine ⟨1, rfl, ?_, ?_⟩
      · show (if 0 ≤ L ∧ L ≤ 63 then Except.ok (((1 : Nat) <<< 6) ||| L.toNat)
            else Except.error Err.hintBitsOutOfRange) = _
        rw [if_pos ⟨h0, h63⟩]
      · rw [shiftLeft_or_eq 1 L.toNat (by omega) (by omega)]
        exact decode_hint_tag1 L.toNat (by omega)
    · refine ⟨2, rfl, ?_, ?_⟩
      · show (if 0 ≤ L ∧ L ≤ 63 then Except.ok (((2 : Nat) <<< 6) ||| L.toNat)
            else Except.error Err.hintBitsOutOfRange) = _
        rw [if_pos ⟨h0, h63⟩]
      · rw [shiftLeft_or_eq 2 L.toNat (by omega) (by omega)]
        exact decode_hint_tag2 L.toNat (by omega)
    · refine ⟨3, rfl, ?_, ?_⟩
      · show (if 0 ≤ L ∧ L ≤ 63 then Except.ok (((3 : Nat) <<< 6) ||| L.toNat)
            else Except.error Err.hintBitsOutOfRange) = _
        rw [if_pos ⟨h0, h63⟩]
      · rw [shiftLeft_or_eq 3 L.toNat (by omega) (by omega)]
        exact decode_hint_tag3 L.toNat (by omega)
  · intro ⟨h1, h2, h3⟩
    exact ⟨.unsupportedHintType, by simp [encode_hint, typeMap, h1, h2, h3]⟩
  · intro hL
    cases htm : typeMap t with
    | none => exact ⟨.unsupportedHintType, by unfold encode_hint; rw [htm]⟩
    | some tm =>
      refine ⟨.hintBitsOutOfRange, ?_⟩
      unfold encode_hint
      rw [htm]
      show (if 0 ≤ L ∧ L ≤ 63 then Except.ok ((tm <<< 6) ||| L.toNat)
          else Except.error Err.hintBitsOutOfRange) = _
      rw [if_neg (by omega)]
  · intro hb
    exact ⟨.unknownTagCode, by simp [decode_hint, hb]⟩

/-- Witness for C4: instantiated at type "int" and length 8, giving hint
byte 72 and its decoding. -/
theorem C4_hint_codec_witness :
    ∃ tag, typeMap "int" = some tag ∧
      encode_hint "int" 8 = .ok ((tag <<< 6) ||| (8 : Int).toNat) ∧
      decode_hint ((tag <<< 6) ||| (8 : Int).toNat) = .ok ("int", (8 : Int).toNat) :=
  (C4_hint_codec "int" 8 0).1 (Or.inl rfl) (by decide) (by decide)

set_option maxRecDepth 8192 in
/-- Claim C5: with every item individually encodable, `encode_record`
fails, with the record-too-large error, exactly when the concatenated
encoding exceeds 256 bytes; on success it returns the concatenation
zero-padded to exactly 256 bytes, never truncating.  Concretely a record
of 33 integers (33 x 9 = 297 bytes) fails. -/
theorem C5_encode_record_spec (R : List Value) (hsup : ∀ v ∈ R, Supported v) :
    (256 < (R.map encodedSize).sum → encode_record R = .error Err.recordTooLarge) ∧
    ((R.map encodedSize).sum ≤ 256 → ∃ C, encodeItems R = .ok C ∧
      C.length = (R.map encodedSize).sum ∧
      encode_record R = .ok (C ++ List.replicate (256 - C.length) 0) ∧
      (C ++ List.replicate (256 - C.length) 0).length = 256) ∧
    encode_record (List.replicate 33 (Value.vInt 1)) = .error Err.recordTooLarge := by
  obtain ⟨C, hC, hlen⟩ := encodeItems_ok R hsup
  refine ⟨?_, ?_, by decide⟩
  · intro hgt
    exact encode_record_large R C hC (by omega)
  · intro hle
    exact ⟨C, hC, hlen, encode_record_ok R C hC (by omega),
      padded_length C (by omega)⟩

/-- Witness for C5: the concrete 33-integer overflow applied through the
theorem. -/
theorem C5_encode_record_spec_witness :
    encode_record (List.replicate 33 (Value.vInt 1)) = .error Err.recordTooLarge :=
  (C5_encode_record_spec [] (by decide)).2.2

/-- Claim C6: a string of at most 63 UTF-8 bytes (including the empty
string) encodes to its hint byte followed by its bytes; a string of more
than 63 bytes fails with the length-check error; in particular 63 bytes
succeed (hint byte 255) and 64 bytes fail. -/
theorem C6_string_value_spec (s : List Nat) :
    (s.length ≤ 63 → ∃ h, encode_hint "str" (s.length : Int) = .ok h ∧
      encode_item (.vStr s) = .ok (h :: s)) ∧
    (63 < s.length → encode_item (.vStr s) = .error Err.hintBitsOutOfRange) ∧
    encode_item (.vStr (List.replicate 63 97)) = .ok (255 :: List.replicate 63 97) ∧
    encode_item (.vStr (List.replicate 64 97)) = .error Err.hintBitsOutOfRange := by
  refine ⟨?_, ?_, by decide, by decide⟩
  · intro hle
    exact ⟨192 + s.length, encode_hint_str_ok s.length hle,
      encode_item_str_ok s hle⟩
  · intro hgt
    exact encode_item_str_long s hgt

/-- Witness for C6: the one-byte string `"h"` (byte 104). -/
theorem C6_string_value_spec_witness :
    ∃ h, encode_hint "str" (([104] : List Nat).length : Int) = .ok h ∧
      encode_item (Value.vStr [104]) = .ok (h :: [104]) :=
  (C6_string_value_spec [104]).1 (by decide)

/-- Claim C10: `encode_item` on an integer succeeds exactly on the range
`[0, 2^64)`, returning hint byte 72 plus the 8 big-endian payload bytes
(9 bytes in all); outside that range `struct.pack(">Q", .)` raises, an
error the spec's taxonomy does not name. -/
theorem C10_int_range (n : Int) :
    ((0 ≤ n ∧ n < 18446744073709551616) →
      encode_item (.vInt n) = .ok (72 :: natToBe8 n.toNat) ∧
      (72 :: natToBe8 n.toNat).length = 9) ∧
    ((n < 0 ∨ 18446744073709551616 ≤ n) →
      encode_item (.vInt n) = .error Err.packOutOfRange) := by
  constructor
  · intro h
    exact ⟨encode_item_int_ok n h.1 h.2, rfl⟩
  · exact encode_item_int_oor n

/-- Witness for C10: the integer 5 encodes to 9 bytes. -/
theorem C10_int_range_witness :
    encode_item (Value.vInt 5) = .ok (72 :: natToBe8 ((5 : Int)).toNat) ∧
      (72 :: natToBe8 ((5 : Int)).toNat).length = 9 :=
  (C10_int_range 5).1 (by decide)

/-! ## Hint bytes are never the sentinel -/

lemma typeMap_bounds (t : String) (tm : Nat) (h : typeMap t = some tm) :
    1 ≤ tm ∧ tm ≤ 3 := by
  unfold typeMap at h
  by_cases h1 : t = "int"
  · rw [if_pos h1] at h
    cases h
    omega
  · rw [if_neg h1] at h
    by_cases h2 : t = "float"
    · rw [if_pos h2] at h
      cases h
      omega
    · rw [if_neg h2] at h
      by_cases h3 : t = "str"
      · rw [if_pos h3] at h
        cases h
        omega
      · rw [if_neg h3] at h
        cases h

lemma encode_hint_ok_ge (t : String) (L : Int) (b : Nat)
    (h : encode_hint t L = .ok b) : 64 ≤ b := by
  unfold encode_hint at h
  cases htm : typeMap t with
  | none => rw [htm] at h; cases h
  | some tm =>
    rw [htm] at h
    have h2 : (if 0 ≤ L ∧ L ≤ 63 then Except.ok ((tm <<< 6) ||| L.toNat)
        else Except.error Err.hintBitsOutOfRange) = Except.ok b := h
    by_cases hcond : 0 ≤ L ∧ L ≤ 63
    · rw [if_pos hcond] at h2
      have hb : (tm <<< 6) ||| L.toNat = b := (Except.ok.injEq _ _).mp h2
      obtain ⟨htm1, htm3⟩ := typeMap_bounds t tm htm
      have := shiftLeft_or_eq tm L.toNat htm3 (by omega)
      omega
    · rw [if_neg hcond] at h2
      cases h2

/-- Claim C7: every hint byte a successful `encode_hint` produces is at
least 64 (type tag at least 1 in the top two bits), so the first byte of
every successful `encode_item` result is nonzero, and in particular the
empty string encodes to the single hint byte 192 -- all distinct from the
end-of-record sentinel byte 0. -/
theorem C7_sentinel_invariant :
    (∀ t L b, encode_hint t L = .ok b → 64 ≤ b) ∧
    (∀ v bs, encode_item v = .ok bs → ∃ h0 rest, bs = h0 :: rest ∧ h0 ≠ 0) ∧
    encode_item (.vStr []) = .ok [192] := by
  refine ⟨encode_hint_ok_ge, ?_, by decide⟩
  intro v bs h
  cases v with
  | vInt n =>
    by_cases hc : 0 ≤ n ∧ n < 18446744073709551616
    · rw [encode_item_int_ok n hc.1 hc.2] at h
      have hb : 72 :: natToBe8 n.toNat = bs := (Except.ok.injEq _ _).mp h
      exact ⟨72, natToBe8 n.toNat, hb.symm, by omega⟩
    · rw [encode_item_int_oor n (by omega)] at h
      cases h
  | vFloat bits =>
    rw [encode_item_float_ok bits] at h
    have hb : 136 :: natToBe8 bits = bs := (Except.ok.injEq _ _).mp h
    exact ⟨136, natToBe8 bits, hb.symm, by omega⟩
  | vStr s =>
    by_cases hc : s.length ≤ 63
    · rw [encode_item_str_ok s hc] at h
      have hb : (192 + s.length) :: s = bs := (Except.ok.injEq _ _).mp h
      exact ⟨192 + s.length, s, hb.symm, by omega⟩
    · rw [encode_item_str_long s (by omega)] at h
      cases h

/-- Witness for C7: the hint byte 72 of `("int", 8)` is at least 64. -/
theorem C7_sentinel_invariant_witness : 64 ≤ 72 :=
  C7_sentinel_invariant.1 "int" 8 72 (by decide)

/-- Claim C9: the record scan stops cleanly: it returns at once when the
offset is at or past 256 (never reading the buffer there), it returns at
once on the sentinel byte 0, every non-final iteration advances the offset
by `item_len + 1 >= 1`, and a record whose encoding fills all 256 bytes
(no sentinel) still decodes back to the original row. -/
theorem C9_scan_safety :
    (∀ (buf : List Nat) fuel i, 256 ≤ i → decodeLoop buf fuel i = .ok []) ∧
    (∀ (buf : List Nat) fuel i, buf.getD i 0 = 0 →
      decodeLoop buf fuel i = .ok []) ∧
    (∀ (buf : List Nat) fuel i name L v, i < 256 → ¬ (buf.getD i 0 = 0) →
      decode_hint (buf.getD i 0) = .ok (name, L) →
      decode_item name L ((buf.drop (i + 1)).take L) = .ok v →
      decodeLoop buf (fuel + 1) i =
        (match decodeLoop buf fuel (i + L + 1) with
          | Except.error e => Except.error e
          | Except.ok rest => Except.ok (v :: rest)) ∧ i < i + L + 1) ∧
    (∀ R C, (∀ v ∈ R, Supported v) → encodeItems R = .ok C →
      C.length = 256 → encode_record R = .ok C ∧ decode_record C = .ok R) := by
  refine ⟨decodeLoop_past, ?_, ?_, ?_⟩
  · intro buf fuel i hb
    cases fuel with
    | zero => rfl
    | succ f =>
      rw [decodeLoop]
      by_cases hi : i < 256
      · rw [if_pos hi, if_pos hb]
      · rw [if_neg hi]
  · intro buf fuel i name L v hi hb hh hd
    refine ⟨?_, by omega⟩
    rw [decodeLoop, if_pos hi, if_neg hb, hh]
    show (match decode_item name L ((buf.drop (i + 1)).take L) with
        | Except.error e => Except.error e
        | Except.ok v2 =>
          match decodeLoop buf fuel (i + L + 1) with
          | Except.error e => Except.error e
          | Except.ok rest => Except.ok (v2 :: rest)) = _
    rw [hd]
  · intro R C hsup hC h256
    have hpad : C ++ List.replicate (256 - C.length) 0 = C := by
      rw [h256]
      simp
    have henc := encode_record_ok R C hC (by omega)
    have hdec := decode_record_padded R C hsup hC (by omega)
    rw [hpad] at henc hdec
    exact ⟨henc, hdec⟩

set_option maxRecDepth 8192 in
/-- Witness for C9: a row of four 63-byte strings fills its record exactly
(4 x 64 = 256 bytes, no sentinel) and still round-trips. -/
theorem C9_scan_safety_witness :
    encode_record exactFillRow = .ok exactFillBytes ∧
      decode_record exactFillBytes = .ok exactFillRow :=
  C9_scan_safety.2.2.2 exactFillRow exactFillBytes (by decide) (by decide)
    (by decide)

/-- Counterexample to claim C2 as stated: on the table with the single
column name "a" (byte 97) and no data rows, the module-level
`encode_database` of `U8Encoder.py` emits a header record while the class
method `U8Encoder.encode_database` of `u8_encode.py` emits no record at
all, so the two copies do not return the same result on every input. -/
theorem C2_counterexample :
    encode_database [Value.vStr [97]] [] ≠
      U8Encoder.encode_database [Value.vStr [97]] [] := by decide

/-- Claim C2 as amended: the two copies agree on every input at the hint,
item and record levels (their bodies are token-identical); the
database-level operations differ, because the class copy encodes only the
data rows (`U8Encoder.encode_database cols rows` is `encodeRows rows`,
ignoring the column names) and decodes every record as a data row, while
the module copy adds and consumes a header record. -/
theorem C2_duplicate_copies (t : String) (L : Int) (b : Nat) (v : Value)
    (tn : String) (Ln : Nat) (bs : List Nat) (r : List Value)
    (cols : List Value) (rows : List (List Value)) (recs : List (List Nat)) :
    U8Encoder._encode_hint t L = encode_hint t L ∧
    U8Encoder._decode_hint b = decode_hint b ∧
    U8Encoder._encode_item v = encode_item v ∧
    U8Encoder._decode_item tn Ln bs = decode_item tn Ln bs ∧
    U8Encoder.encode_record r = encode_record r ∧
    U8Encoder.decode_record bs = decode_record bs ∧
    U8Encoder.encode_database cols rows = encodeRows rows ∧
    U8Encoder.decode_database recs = decodeRows recs :=
  ⟨rfl, rfl, copies_item_enc_eq v, rfl, copies_encode_record_eq r,
    copies_decode_record_eq bs, copies_encodeRows_eq rows,
    copies_decodeRows_eq recs⟩

/-- Counterexample to claim C3 as stated: the class copy's table-level
encode does not put the encoded column names first; on the table with
column "a" and no rows it produces no record instead of the single header
record the claim requires. -/
theorem C3_counterexample :
    U8Encoder.encode_database [Value.vStr [97]] [] ≠
      (match encode_record [Value.vStr [97]] with
        | Except.error e => Except.error e
        | Except.ok h => Except.ok [h]) := by decide

/-- Claim C3 as amended: the module-level copy (`U8Encoder.py`) satisfies
the claim: `encode_database` returns the encoded column-name record
followed by the encoded data rows in order, and `decode_database` decodes
record 0 as the column names and every remaining record as a data row.
(The class copy of `u8_encode.py` omits the header entirely, as the
counterexample shows.) -/
theorem C3_database_layout (cols : List Value) (rows : List (List Value)) :
    (∀ h ds, encode_record cols = .ok h → encodeRows rows = .ok ds →
      encode_database cols rows = .ok (h :: ds)) ∧
    (∀ r0 rest hdr rs, decode_record r0 = .ok hdr → decodeRows rest = .ok rs →
      decode_database (r0 :: rest) = .ok (hdr, rs)) := by
  constructor
  · intro h ds hh hd
    rw [encode_database, hh]
    show (match encodeRows rows with
        | Except.error e => Except.error e
        | Except.ok ds2 => Except.ok (h :: ds2)) = Except.ok (h :: ds)
    rw [hd]
  · intro r0 rest hdr rs hh hd
    show (match decode_record r0 with
        | Except.error e => Except.error e
        | Except.ok header =>
          match decodeRows rest with
          | Except.error e => Except.error e
          | Except.ok ds2 => Except.ok (header, ds2)) = Except.ok (hdr, rs)
    rw [hh]
    show (match decodeRows rest with
        | Except.error e => Except.error e
        | Except.ok ds2 => Except.ok (hdr, ds2)) = Except.ok (hdr, rs)
    rw [hd]

/-- Witness for the amended C3: a one-record table decodes with record 0
as the header and no data rows. -/
theorem C3_database_layout_witness :
    decode_database [cexBufA] = .ok ([Value.vInt 1], []) :=
  (C3_database_layout [] []).2 cexBufA [] [Value.vInt 1] [] (by decide) rfl

/-- Counterexample to claim C8 as stated: two 256-byte buffers that agree
at every offset up to and including the position of their first zero byte
(offset 1, inside an integer payload) can still decode differently,
because a zero byte inside a payload is not the sentinel and the bytes
after it do influence the result. -/
theorem C8_counterexample :
    cexBufA.length = 256 ∧ cexBufB.length = 256 ∧
    cexBufA.getD 0 0 ≠ 0 ∧ cexBufA.getD 1 0 = 0 ∧
    cexBufB.getD 0 0 ≠ 0 ∧ cexBufB.getD 1 0 = 0 ∧
    cexBufA.take 2 = cexBufB.take 2 ∧
    decode_record cexBufA ≠ decode_record cexBufB := by decide

/-- Claim C8 as amended: the two-run property holds with "first zero byte"
read as the first zero the scan meets in hint position, where it stops: if
the scan of a 256-byte buffer `A` stops on the sentinel at offset `p`,
then any 256-byte buffer `B` that matches `A` at offsets `0..p` decodes to
the same result -- the bytes after the sentinel are never read and never
validated. -/
theorem C8_padding_leniency (A B : List Nat) (p : Nat)
    (hA : A.length = 256) (hB : B.length = 256)
    (hstop : scanStop A 256 0 = some p)
    (hpre : A.take (p + 1) = B.take (p + 1)) :
    decode_record A = decode_record B := by
  rw [decode_record, decode_record, if_pos hA, if_pos hB]
  exact decodeLoop_agrees A B p hpre 256 0 hstop

/-- Witness for the amended C8: the record of the row `[5]` decodes the
same whether its padding is all zeros or contains a stray byte 7 after the
sentinel at offset 9. -/
theorem C8_padding_leniency_witness :
    decode_record lenientBufA = decode_record lenientBufB :=
  C8_padding_leniency lenientBufA lenientBufB 9 (by decide) (by decide)
    (by decide) (by decide)
